import Mathlib

/-! Verification development for the DKNN (deep k-nearest-neighbor) classifier of
`lib/mnist_model.py`.  The Python class `DKNN` is shallowly embedded below:

* representations are batches of rational vectors (`List (List ℚ)`), one row per
  sample; the external neural network plus its forward hooks (`_get_activation`,
  `get_activations`) is a function field `modelReps` mapping a batch and a layer
  name to the batch of per-layer representation rows;
* the faiss `IndexLSH` is embedded abstractly: the index stores how many vectors
  were added (`ntotal`, set by `index.add` in `_build_index`) and a ranking
  function that orders the stored ids by the LSH proxy distance to a query.
  `index.search(rep, k)` returns, per query row, exactly `k` ids: the first
  `min k ntotal` ranked ids, padded with `-1` (faiss pads missing neighbors with
  id `-1` and never raises when `k > ntotal`).  The `renorm(2, 0, 1)`
  pre-normalization of the query/database rows only permutes which neighbors the
  opaque LSH ranking returns, so it is absorbed into the abstract ranking
  function; the normalization map itself is embedded separately (over ℝ) below
  as `renormRow`/`renormBatch` and is the subject of its own claim;
* numpy arrays are lists; `np.bincount(-, minlength=10)` is `npBincount`;
  fancy indexing `y_train[I]` with possibly negative ids (faiss padding) is
  `npGet`, which wraps a negative index from the end of the array as numpy does;
  the in-place `class_counts[i] += bincount(...)` broadcast is `addCounts`,
  which fails (numpy `ValueError`) when the operand lengths differ; the
  `reshape(x.size(0), -1)` of line 125 is `npReshapeRows`, which fails
  (numpy `ValueError`) on a zero-row batch, where the `-1` dimension cannot be
  inferred, and on a non-divisible size;
* mutating method calls are state transformers `DKNN → DKNN × result`; the only
  field the query methods assign is `activations` (written by the forward
  hooks), exactly as in the source.
-/

/-- One raw input sample (a flattened tensor row); only its identity matters to
the embedded pipeline, since the network is abstract. -/
abbrev Input := List ℚ

/-- Embedding of a built `faiss.IndexLSH`: `ntotal` stored vectors, plus the
(opaque, deterministic) LSH ranking of stored ids by proxy distance to a query
row.  The 256-bit hash family of `faiss.IndexLSH(d, 256)` is external code; only
the ranking it induces is observable through `search`. -/
structure FaissIndex where
  ntotal : ℕ
  ranking : List ℚ → List ℕ

/-- Embedding of `index.search(rep, k)` for a single query row: faiss returns
exactly `k` ids per query; when fewer than `k` vectors are stored the tail is
padded with id `-1`.  No exception is raised for `k > ntotal`. -/
def FaissIndex.searchIds (idx : FaissIndex) (q : List ℚ) (k : ℕ) : List ℤ :=
  let t := ((idx.ranking q).take (min k idx.ntotal)).map Int.ofNat
  t ++ List.replicate (k - t.length) (-1)

/-- Embedding of `DKNN._build_index(xb)` (mnist_model.py lines 92-109): builds
an `IndexLSH` and adds the `xb.length` database rows to it, so `ntotal` is the
number of training points; the LSH ranking over those rows is abstract. -/
def build_index (rank : List ℚ → List ℕ) (xb : List (List ℚ)) : FaissIndex :=
  { ntotal := xb.length, ranking := rank }

/-- State of a constructed `DKNN` object (mnist_model.py lines 49-84): the
fields assigned in `__init__`.  `modelReps` stands for `self.model` together
with the registered forward hooks: running the model on a batch populates one
representation batch per configured layer. -/
structure DKNN where
  modelReps : List Input → String → List (List ℚ)
  x_train : List Input
  y_train : List ℕ
  layers : List String
  k : ℕ
  num_classes : ℕ
  indices : List FaissIndex
  activations : List (String × List (List ℚ))
  A : List ℚ

/-- Embedding of `DKNN.get_activations(x)` (lines 111-113): a forward pass
fires the hook of every configured layer, overwriting `self.activations[name]`
for each of them, and the dict is returned.  Only hooked (configured) layers
ever write to the dict, and every one of them writes on every forward pass, so
the dict after the call holds exactly one fresh entry per configured layer. -/
def DKNN.get_activations (s : DKNN) (x : List Input) :
    DKNN × List (String × List (List ℚ)) :=
  let acts := s.layers.map (fun l => (l, s.modelReps x l))
  ({ s with activations := acts }, acts)

/-- Dictionary access `reps[layer]` on the activations dict.  A missing key
would be a `KeyError` in Python; it never occurs, because `get_neighbors` only
looks up configured layers and `get_activations` fills all of them. -/
def lookupRep (acts : List (String × List (List ℚ))) (l : String) : List (List ℚ) :=
  ((acts.find? (fun p => p.1 = l)).map (fun p => p.2)).getD []

/-- Splits a flat array into `n` consecutive rows of width `w` (the row
partition produced by a successful numpy `reshape(n, -1)`). -/
def listChunks (w : ℕ) : ℕ → List ℚ → List (List ℚ)
  | 0, _ => []
  | n + 1, xs => xs.take w :: listChunks w n (xs.drop w)

/-- Embedding of `arr.reshape(n, -1)` (mnist_model.py line 125) on a
representation batch of total size `s`: numpy infers the `-1` dimension as
`s / n`, and raises `ValueError` (`none`) when `n = 0` — the product of the
known dimensions is 0, so the unknown one cannot be inferred; in particular a
zero-row query batch always raises — or when `s` is not divisible by `n`.
On success the flat data is regrouped into exactly `n` rows. -/
def npReshapeRows (n : ℕ) (rep : List (List ℚ)) : Option (List (List ℚ)) :=
  let flat := rep.flatten
  if n = 0 then none
  else if flat.length % n = 0 then some (listChunks (flat.length / n) n flat)
  else none

/-- The body executed per kept layer in `get_neighbors` (lines 124-126):
`rep = reps[layer].renorm(2, 0, 1)`, then
`rep = rep.detach().cpu().numpy().reshape(x.size(0), -1)`, then
`D, I = index.search(rep, k)`.  The `renorm` clamp changes neither the size
nor the row count of the batch, so the reshape operates on the same shape
either way; `renorm` only perturbs which neighbors the opaque LSH ranking
returns and is absorbed into the abstract ranking function (it is embedded
separately as `renormRow` below).  The reshape may raise (`none`). -/
def searchLayer (n k : ℕ) (acts : List (String × List (List ℚ)))
    (li : String × FaissIndex) : Option (List (List ℤ)) :=
  (npReshapeRows n (lookupRep acts li.1)).map
    (fun rows => rows.map (fun q => li.2.searchIds q k))

/-- The loop `for layer, index in zip(self.layers, self.indices)` of
`get_neighbors` (lines 122-130): configured layers whose name occurs in the
requested `layers` are queried (and their reshape may raise, aborting the
call); all other zip entries are skipped, so requested names that are not
configured are silently ignored. -/
def neighborsLoop (n k : ℕ) (layers : List String)
    (acts : List (String × List (List ℚ))) :
    List (String × FaissIndex) → Option (List (List (List ℤ)))
  | [] => some []
  | li :: rest =>
    if li.1 ∈ layers then
      match searchLayer n k acts li with
      | none => none
      | some imat =>
        match neighborsLoop n k layers acts rest with
        | none => none
        | some out => some (imat :: out)
    else neighborsLoop n k layers acts rest

/-- Embedding of `DKNN.get_neighbors(x, k, layers)` (lines 115-131).  Defaults:
`k = self.k`, `layers = self.layers`.  Per kept layer it returns the id matrix
produced by `index.search` (the distance matrix `D` is returned alongside `I`
in the source and discarded by every caller; it is omitted here); the numpy
reshape of line 125 can raise, embedded as `none`.  The only state mutation is
the hook write to `activations`. -/
def DKNN.get_neighbors (s : DKNN) (x : List Input) (ko : Option ℕ)
    (lo : Option (List String)) : DKNN × Option (List (List (List ℤ))) :=
  let k := ko.getD s.k
  let layers := lo.getD s.layers
  let p := s.get_activations x
  (p.1, neighborsLoop x.length k layers p.2 (s.layers.zip s.indices))

/-- Embedding of `np.bincount(xs, minlength=ml)`: the histogram has
`max ml (largest entry + 1)` cells (for an empty `xs`, `ml` cells), cell `j`
holding the number of occurrences of `j`. -/
def npBincount (xs : List ℕ) (ml : ℕ) : List ℕ :=
  let m := max ml (xs.foldl (fun a v => max a (v + 1)) 0)
  (List.range m).map (fun j => xs.count j)

/-- Embedding of numpy integer array indexing `ys[i]` with a possibly negative
`i` (faiss pads missing neighbor ids with `-1`, and `ys[-1]` is the last
element).  An index outside `[-len, len)` would raise `IndexError`; that case
is unreachable from faiss output and is given the junk value `0`. -/
def npGet (ys : List ℕ) (i : ℤ) : ℕ :=
  if 0 ≤ i then ys.getD i.toNat 0 else ys.getD (ys.length - (-i).toNat) 0

/-- Embedding of the broadcast in-place add `class_counts[i] += bincount`
(line 140): numpy accepts the statement only when the histogram length matches
the row width `num_classes` (a length-1 histogram cannot occur, since
`minlength=10`); otherwise it raises a shape `ValueError`, embedded as
`none`. -/
def addCounts (row : List ℚ) (b : List ℕ) : Option (List ℚ) :=
  if b.length = row.length then
    some (List.zipWith (fun c v => c + v) row (b.map (Nat.cast : ℕ → ℚ)))
  else none

/-- The body of the per-layer loop of `classify` (lines 137-140): for each
sample row `i` in `range(x.size(0))`, look up the labels `y_train[I[i]]` of the
returned neighbor ids and add their histogram to the running vote-count row.
Accessing `I[i]` for `i` beyond the id matrix would raise `IndexError`
(`none`); extra id rows beyond the batch are not visited. -/
def addLayerRows (ytrain : List ℕ) : List (List ℚ) → List (List ℤ) →
    Option (List (List ℚ))
  | [], _ => some []
  | _ :: _, [] => none
  | row :: rows, ids :: rest =>
    match addCounts row (npBincount (ids.map (npGet ytrain)) 10) with
    | none => none
    | some r =>
      match addLayerRows ytrain rows rest with
      | none => none
      | some rs => some (r :: rs)

/-- The outer loop `for (_, I) in nb` of `classify` (lines 137-140), folding
the per-layer vote histograms into the accumulator matrix. -/
def votesAcc (ytrain : List ℕ) : List (List (List ℤ)) → List (List ℚ) →
    Option (List (List ℚ))
  | [], rows => some rows
  | imat :: rest, rows =>
    match addLayerRows ytrain rows imat with
    | none => none
    | some rows2 => votesAcc ytrain rest rows2

/-- Embedding of `DKNN.classify(x)` (lines 133-141): query all configured
layers with the default `k`, then accumulate per-class neighbor vote counts
starting from `np.zeros((x.size(0), self.num_classes))`.  The result is `none`
when `get_neighbors` raises (numpy reshape) or when the broadcast add raises
(histogram width differs from `num_classes`). -/
def DKNN.classify (s : DKNN) (x : List Input) : DKNN × Option (List (List ℚ)) :=
  let p := s.get_neighbors x none none
  (p.1, match p.2 with
    | none => none
    | some nb => votesAcc s.y_train nb
        (List.replicate x.length (List.replicate s.num_classes (0 : ℚ))))

/-- The per-row credibility expression of `DKNN.credibility` (lines 146-149):
`np.sum(self.A >= a)` divided by `self.A.shape[0]`. -/
def credOfA (A : List ℚ) (a : ℚ) : ℚ :=
  ((A.countP (fun α => decide (a ≤ α)) : ℕ) : ℚ) / (A.length : ℚ)

/-- The maximum of a vote-count row, `np.max(class_counts, 1)` (line 145).
numpy raises on an empty row; the unreachable empty case gets junk value 0. -/
def npAmax : List ℚ → ℚ
  | [] => 0
  | x :: xs => xs.foldl max x

/-- Embedding of `DKNN.credibility(class_counts)` (lines 143-149): per row,
the nonconformity of the predicted class is
`a = self.k * len(self.layers) - np.max(row)`, and the credibility is the
fraction of calibration nonconformity scores `≥ a`. -/
def DKNN.credibility (s : DKNN) (class_counts : List (List ℚ)) : List ℚ :=
  class_counts.map (fun row =>
    credOfA s.A (((s.k * s.layers.length : ℕ) : ℚ) - npAmax row))

/-- Embedding of the calibration loop of `__init__` (lines 82-84):
`A = np.zeros((n,)) + k*len(layers)` followed by
`for i, (y_c, y_p) in enumerate(zip(y_cal, y_pred)): A[i] -= y_p[y_c]`.
`zip` stops at the shorter of `y_cal` and the prediction matrix, so entries
past it keep the initial value `k*len(layers)`.  Row indexing `y_p[y_c]` with
a label out of `[0, num_classes)` would raise; the junk value of `List.getD`
stands in for that unreachable case. -/
def initA (kL : ℚ) (n : ℕ) (y_cal : List ℕ) (M : List (List ℚ)) : List ℚ :=
  (List.range n).map (fun i =>
    match y_cal[i]?, M[i]? with
    | some yc, some yp => kL - yp.getD yc 0
    | _, _ => kL)

/-- External pieces consumed by `DKNN.__init__`: the model's named children
(for the hook registration assert), the hooked forward pass, and the LSH hash
family of each per-layer index. -/
structure ModelCfg where
  children : List String
  reps : List Input → String → List (List ℚ)
  lshRank : String → List ℚ → List ℕ

/-- The state of `self` after the index-building phase of `__init__`
(lines 55-78), before the calibration phase: one LSH index per configured
layer over that layer's training representation rows (the torch `view` of
line 75, a pure flatten for a nonempty training set, is absorbed into the
abstract per-layer ranking like `renorm`). -/
def initState (cfg : ModelCfg) (x_train : List Input) (y_train : List ℕ)
    (layers : List String) (k : ℕ) (num_classes : ℕ) : DKNN :=
  { modelReps := cfg.reps, x_train := x_train, y_train := y_train,
    layers := layers, k := k, num_classes := num_classes,
    indices := layers.map (fun l => build_index (cfg.lshRank l) (cfg.reps x_train l)),
    activations := [], A := [] }

/-- Embedding of `DKNN.__init__` (lines 49-84).  In order: register one hook
per requested layer and `assert layer_count == len(layers)` (an `AssertionError`
aborts construction: `none`); embed the training set and build one LSH index
per layer over its representation rows; then run `self.classify(x_cal)` on the
calibration set (an exception there — the numpy reshape of line 125, or the
broadcast add of line 140 — also aborts construction) and store the
nonconformity array `A`.  There is no emptiness check on the calibration set
anywhere in the constructor. -/
def DKNN.init (cfg : ModelCfg) (x_train : List Input) (y_train : List ℕ)
    (x_cal : List Input) (y_cal : List ℕ) (layers : List String) (k : ℕ)
    (num_classes : ℕ) : Option DKNN :=
  if cfg.children.countP (fun c => decide (c ∈ layers)) = layers.length then
    let s0 := initState cfg x_train y_train layers k num_classes
    let p := s0.classify x_cal
    match p.2 with
    | some M =>
      some { p.1 with A := initA ((k * layers.length : ℕ) : ℚ) x_cal.length y_cal M }
    | none => none
  else none

/-- Squared L2 norm of a representation row (real-valued, for the
normalization step of lines 77 and 124). -/
def sqNormR (v : List ℝ) : ℝ := (v.map (fun x => x ^ 2)).sum

/-- Embedding of `torch.renorm(rep, p=2, dim=0, maxnorm=1)` on one row
(lines 77 and 124): a row whose L2 norm does not exceed `maxnorm = 1` is
returned unchanged; a row with larger norm is scaled down to norm 1 (the
source divides by `norm + 1e-7`; the infinitesimal float guard is dropped in
this real-valued embedding). -/
noncomputable def renormRow (v : List ℝ) : List ℝ :=
  if sqNormR v ≤ 1 then v else v.map (fun x => x / Real.sqrt (sqNormR v))

/-- `rep.renorm(2, 0, 1)` applied to a whole representation batch: dimension 0
sub-tensors are the per-sample rows, each clamped independently. -/
noncomputable def renormBatch (m : List (List ℝ)) : List (List ℝ) :=
  m.map renormRow

/-- A tiny concrete LSH ranking used for concrete instances: it ranks the two
stored database rows in storage order for every query. -/
def sampleRank : List ℚ → List ℕ := fun _ => [0, 1]

/-- A concrete external-model configuration: two named children, an identity
embedding, and the ranking above for every layer. -/
def sampleCfg : ModelCfg :=
  { children := ["relu1", "fc"], reps := fun x _ => x, lshRank := fun _ => sampleRank }

/-- A concrete constructed classifier over two training points with labels 0
and 1, one configured layer, `k = 2`, `num_classes = 10`, and nonconformity
array `[1]` (one calibration sample). -/
def sampleDKNN : DKNN :=
  { modelReps := fun x _ => x, x_train := [[1, 0], [0, 1]], y_train := [0, 1],
    layers := ["relu1"], k := 2, num_classes := 10,
    indices := [{ ntotal := 2, ranking := sampleRank }], activations := [],
    A := [1] }

theorem searchIds_length (idx : FaissIndex) (q : List ℚ) (k : ℕ) :
    (idx.searchIds q k).length = k := by
  simp only [FaissIndex.searchIds, List.length_append, List.length_replicate,
    List.length_map, List.length_take]
  omega

theorem foldl_max_le {m b : ℚ} (l : List ℚ) (hb : b ≤ m) (h : ∀ x ∈ l, x ≤ m) :
    l.foldl max b ≤ m := by
  induction l generalizing b with
  | nil => exact hb
  | cons a l ih =>
    exact ih (max_le hb (h a (by simp))) (fun x hx => h x (by simp [hx]))

theorem le_foldl_max (b : ℚ) (l : List ℚ) : b ≤ l.foldl max b := by
  induction l generalizing b with
  | nil => exact le_refl b
  | cons a l ih => exact le_trans (le_max_left b a) (ih (max b a))

theorem mem_le_foldl_max {x : ℚ} {l : List ℚ} (hx : x ∈ l) (b : ℚ) :
    x ≤ l.foldl max b := by
  induction l generalizing b with
  | nil => cases hx
  | cons a l ih =>
    rcases List.mem_cons.mp hx with h | h
    · subst h
      exact le_trans (le_max_right b x) (le_foldl_max (max b x) l)
    · exact ih h (max b a)

theorem npAmax_eq_max {row : List ℚ} {m : ℚ} (hm : m ∈ row)
    (hub : ∀ x ∈ row, x ≤ m) : npAmax row = m := by
  cases row with
  | nil => cases hm
  | cons a l =>
    refine le_antisymm (foldl_max_le l (hub a (by simp)) (fun x hx => hub x (by simp [hx]))) ?_
    rcases List.mem_cons.mp hm with h | h
    · subst h; exact le_foldl_max m l
    · exact mem_le_foldl_max h a

theorem countP_getD_card (A : List ℚ) (p : ℚ → Prop) [DecidablePred p] :
    A.countP (fun a => decide (p a)) =
      ((Finset.range A.length).filter (fun i => p (A.getD i 0))).card := by
  induction A with
  | nil => simp
  | cons a A ih =>
    rw [List.countP_cons, List.length_cons, Finset.card_filter, Finset.sum_range_succ']
    simp only [List.getD_cons_succ, List.getD_cons_zero, ← Finset.card_filter, ih]
    simp [decide_eq_true_eq]

theorem le_foldl_maxsucc {b c : ℕ} (xs : List ℕ) (hb : b ≤ c)
    (h : ∀ v ∈ xs, v + 1 ≤ c) : xs.foldl (fun a v => max a (v + 1)) b ≤ c := by
  induction xs generalizing b with
  | nil => exact hb
  | cons x xs ih =>
    exact ih (max_le hb (h x (by simp))) (fun v hv => h v (by simp [hv]))

theorem foldl_maxsucc_le (xs : List ℕ) (b : ℕ) :
    b ≤ xs.foldl (fun a v => max a (v + 1)) b := by
  induction xs generalizing b with
  | nil => exact le_refl b
  | cons x xs ih => exact le_trans (le_max_left _ _) (ih (max b (x + 1)))

theorem mem_lt_foldl_maxsucc {v : ℕ} {xs : List ℕ} (hv : v ∈ xs) (b : ℕ) :
    v + 1 ≤ xs.foldl (fun a v => max a (v + 1)) b := by
  induction xs generalizing b with
  | nil => cases hv
  | cons x xs ih =>
    rcases List.mem_cons.mp hv with h | h
    · subst h
      exact le_trans (le_max_right b (v + 1)) (foldl_maxsucc_le xs (max b (v + 1)))
    · exact ih h (max b (x + 1))

theorem npBincount_length (xs : List ℕ) (ml : ℕ) :
    (npBincount xs ml).length = max ml (xs.foldl (fun a v => max a (v + 1)) 0) := by
  simp [npBincount]

theorem mem_lt_npBincount_length {v : ℕ} {xs : List ℕ} (hv : v ∈ xs) (ml : ℕ) :
    v < (npBincount xs ml).length := by
  rw [npBincount_length]
  exact lt_of_lt_of_le (mem_lt_foldl_maxsucc hv 0) (le_max_right _ _)

theorem npBincount_length_of_lt {xs : List ℕ} {ml : ℕ}
    (h : ∀ v ∈ xs, v < ml) : (npBincount xs ml).length = ml := by
  rw [npBincount_length]
  exact max_eq_left (le_foldl_maxsucc xs (Nat.zero_le ml) h)

theorem countP_lt_succ (xs : List ℕ) (m : ℕ) :
    xs.countP (fun v => decide (v < m + 1)) =
      xs.countP (fun v => decide (v < m)) + xs.count m := by
  induction xs with
  | nil => simp
  | cons a xs ih =>
    simp only [List.countP_cons, List.count_cons, ih, decide_eq_true_eq, beq_iff_eq]
    split_ifs <;> omega

theorem sum_range_count (xs : List ℕ) (m : ℕ) :
    ((List.range m).map (fun j => xs.count j)).sum =
      xs.countP (fun v => decide (v < m)) := by
  induction m with
  | zero => simp
  | succ m ih =>
    rw [List.range_succ, List.map_append, List.sum_append, ih, countP_lt_succ]
    simp

theorem npBincount_sum (xs : List ℕ) (ml : ℕ) : (npBincount xs ml).sum = xs.length := by
  have h : ∀ v ∈ xs, v < max ml (xs.foldl (fun a v => max a (v + 1)) 0) := by
    intro v hv
    exact lt_of_lt_of_le (mem_lt_foldl_maxsucc hv 0) (le_max_right _ _)
  simp only [npBincount, sum_range_count]
  rw [List.countP_eq_length]
  intro v hv
  exact decide_eq_true (h v hv)

theorem sum_zipWith_add : ∀ (l1 l2 : List ℚ), l2.length = l1.length →
    (List.zipWith (fun c v => c + v) l1 l2).sum = l1.sum + l2.sum
  | [], l2, h => by
    have hb : l2 = [] := List.length_eq_zero.mp (by simpa using h)
    simp [hb]
  | c :: l1, [], h => by simp at h
  | c :: l1, v :: l2, h => by
    simp only [List.zipWith_cons_cons, List.sum_cons,
      sum_zipWith_add l1 l2 (by simpa using h)]
    ring

theorem addCounts_sum {row r : List ℚ} {b : List ℕ} (h : addCounts row b = some r) :
    r.sum = row.sum + ((b.sum : ℕ) : ℚ) := by
  unfold addCounts at h
  split at h
  · cases h
    rw [sum_zipWith_add row (b.map (Nat.cast : ℕ → ℚ)) (by simpa using by assumption),
      Nat.cast_list_sum]
  · cases h

theorem addLayerRows_sums {ytrain : List ℕ} {kk : ℕ} {c : ℚ} :
    ∀ {rows imat rows2}, addLayerRows ytrain rows imat = some rows2 →
      (∀ ids ∈ imat, List.length ids = kk) → (∀ r ∈ rows, List.sum r = c) →
      ∀ r ∈ rows2, List.sum r = c + (kk : ℚ)
  | [], imat, rows2, h, _, _ => by
    cases h
    intro r hr
    cases hr
  | row :: rows, [], rows2, h, _, _ => by cases h
  | row :: rows, ids :: rest, rows2, h, hlen, hsum => by
    unfold addLayerRows at h
    rcases h1 : addCounts row (npBincount (ids.map (npGet ytrain)) 10) with _ | r1
    · rw [h1] at h; cases h
    · rw [h1] at h
      rcases h2 : addLayerRows ytrain rows rest with _ | rs
      · rw [h2] at h; cases h
      · rw [h2] at h
        cases h
        intro r hr
        rcases List.mem_cons.mp hr with hre | hre
        · subst hre
          have hb : (npBincount (ids.map (npGet ytrain)) 10).sum
              = (ids.map (npGet ytrain)).length := npBincount_sum _ _
          rw [addCounts_sum h1, hsum row (by simp), hb]
          simp [hlen ids (by simp)]
        · exact addLayerRows_sums h2 (fun i hi => hlen i (by simp [hi]))
            (fun r hr => hsum r (by simp [hr])) r hre

theorem votesAcc_sums {ytrain : List ℕ} {kk : ℕ} :
    ∀ {nb rows out} {c : ℚ}, votesAcc ytrain nb rows = some out →
      (∀ imat ∈ nb, ∀ ids ∈ imat, List.length ids = kk) →
      (∀ r ∈ rows, List.sum r = c) →
      ∀ r ∈ out, List.sum r = c + ((kk * nb.length : ℕ) : ℚ)
  | [], rows, out, c, h, _, hsum => by
    cases h
    simpa using hsum
  | imat :: rest, rows, out, c, h, hlen, hsum => by
    unfold votesAcc at h
    rcases h1 : addLayerRows ytrain rows imat with _ | rows2
    · rw [h1] at h; cases h
    · rw [h1] at h
      have hmid : ∀ r ∈ rows2, List.sum r = c + (kk : ℚ) :=
        addLayerRows_sums h1 (hlen imat (by simp)) hsum
      have := votesAcc_sums h (fun i hi => hlen i (by simp [hi])) hmid
      intro r hr
      have hr2 := this r hr
      rw [hr2]
      simp only [List.length_cons]
      push_cast
      ring

theorem votesAcc_nil (ytrain : List ℕ) :
    ∀ nb, votesAcc ytrain nb [] = some [] := by
  intro nb
  induction nb with
  | nil => rfl
  | cons imat rest ih => simpa [votesAcc, addLayerRows] using ih

theorem countP_zip_fst {α β : Type} (c : α → Prop) [DecidablePred c] :
    ∀ (l1 : List α) (l2 : List β), l1.length = l2.length →
      (l1.zip l2).countP (fun p => decide (c p.1)) = l1.countP (fun a => decide (c a))
  | [], _, _ => by simp
  | a :: l1, [], h => by simp at h
  | a :: l1, b :: l2, h => by
    simp only [List.zip_cons_cons, List.countP_cons]
    rw [countP_zip_fst c l1 l2 (by simpa using h)]

theorem getD_lt_of_all {ys : List ℕ} {c : ℕ} (h : ∀ y ∈ ys, y < c) (h0 : 0 < c)
    (j : ℕ) : ys.getD j 0 < c := by
  rw [List.getD_eq_getElem?_getD]
  rcases hj : ys[j]? with _ | v
  · simpa using h0
  · simpa using h v (List.getElem?_mem hj)

theorem npGet_lt {ys : List ℕ} {c : ℕ} (h : ∀ y ∈ ys, y < c) (h0 : 0 < c)
    (i : ℤ) : npGet ys i < c := by
  unfold npGet
  split <;> exact getD_lt_of_all h h0 _

theorem get_neighbors_snd (s : DKNN) (x : List Input) (ko : Option ℕ)
    (lo : Option (List String)) :
    (s.get_neighbors x ko lo).2 = neighborsLoop x.length (ko.getD s.k)
      (lo.getD s.layers) (s.layers.map (fun l => (l, s.modelReps x l)))
      (s.layers.zip s.indices) := rfl

theorem classify_snd (s : DKNN) (x : List Input) :
    (s.classify x).2 = match (s.get_neighbors x none none).2 with
      | none => none
      | some nb => votesAcc s.y_train nb
          (List.replicate x.length (List.replicate s.num_classes (0 : ℚ))) := rfl

theorem neighborsLoop_ids_length {n k : ℕ} {layers : List String}
    {acts : List (String × List (List ℚ))} :
    ∀ {pairs out}, neighborsLoop n k layers acts pairs = some out →
      ∀ imat ∈ out, ∀ ids ∈ imat, List.length ids = k
  | [], out, h => by
    cases h
    intro imat him
    cases him
  | li :: rest, out, h => by
    unfold neighborsLoop at h
    split at h
    · rcases h1 : searchLayer n k acts li with _ | imat0
      · rw [h1] at h; cases h
      · rw [h1] at h
        rcases h2 : neighborsLoop n k layers acts rest with _ | out2
        · rw [h2] at h; cases h
        · rw [h2] at h
          cases h
          intro imat him ids hid
          rcases List.mem_cons.mp him with rfl | him2
          · unfold searchLayer at h1
            rcases h3 : npReshapeRows n (lookupRep acts li.1) with _ | rows
            · rw [h3] at h1; cases h1
            · rw [h3] at h1
              simp only [Option.map_some'] at h1
              cases h1
              rcases List.mem_map.mp hid with ⟨q, -, rfl⟩
              exact searchIds_length li.2 q k
          · exact neighborsLoop_ids_length h2 imat him2 ids hid
    · intro imat him ids hid
      exact neighborsLoop_ids_length h imat him ids hid

theorem neighborsLoop_length {n k : ℕ} {layers : List String}
    {acts : List (String × List (List ℚ))} :
    ∀ {pairs out}, neighborsLoop n k layers acts pairs = some out →
      out.length = pairs.countP (fun li => decide (li.1 ∈ layers))
  | [], out, h => by
    cases h
    simp
  | li :: rest, out, h => by
    unfold neighborsLoop at h
    rw [List.countP_cons]
    split at h
    · rename_i hmem
      rcases h1 : searchLayer n k acts li with _ | imat0
      · rw [h1] at h; cases h
      · rw [h1] at h
        rcases h2 : neighborsLoop n k layers acts rest with _ | out2
        · rw [h2] at h; cases h
        · rw [h2] at h
          cases h
          rw [List.length_cons, neighborsLoop_length h2]
          simp [hmem]
    · rename_i hmem
      rw [neighborsLoop_length h]
      simp [hmem]

theorem neighborsLoop_cons {n k : ℕ} {layers : List String}
    {acts : List (String × List (List ℚ))} {li : String × FaissIndex}
    {rest : List (String × FaissIndex)} {out : List (List (List ℤ))}
    (hmem : li.1 ∈ layers)
    (h : neighborsLoop n k layers acts (li :: rest) = some out) :
    ∃ imat0 out2, out = imat0 :: out2 := by
  unfold neighborsLoop at h
  rw [if_pos hmem] at h
  rcases h1 : searchLayer n k acts li with _ | imat0
  · rw [h1] at h; cases h
  · rw [h1] at h
    rcases h2 : neighborsLoop n k layers acts rest with _ | out2
    · rw [h2] at h; cases h
    · rw [h2] at h
      cases h
      exact ⟨imat0, out2, rfl⟩

theorem classify_nil_fails (s : DKNN) (hl : s.layers ≠ [])
    (hi : s.indices ≠ []) : (s.classify []).2 = none := by
  rcases List.exists_cons_of_ne_nil hl with ⟨l0, lt, hl0⟩
  rcases List.exists_cons_of_ne_nil hi with ⟨i0, it, hi0⟩
  rw [classify_snd]
  rcases hg : (s.get_neighbors [] none none).2 with _ | nb
  · rfl
  · exfalso
    rw [get_neighbors_snd, hl0, hi0] at hg
    simp only [List.zip_cons_cons, Option.getD_none, List.length_nil] at hg
    unfold neighborsLoop at hg
    rw [if_pos (List.mem_cons_self l0 lt)] at hg
    simp [searchLayer, npReshapeRows] at hg

theorem nb_ids_length (s : DKNN) (x : List Input) {nb : List (List (List ℤ))}
    (h : (s.get_neighbors x none none).2 = some nb) :
    ∀ imat ∈ nb, ∀ ids ∈ imat, List.length ids = s.k := by
  rw [get_neighbors_snd] at h
  exact neighborsLoop_ids_length h

theorem nb_length (s : DKNN) (x : List Input) {nb : List (List (List ℤ))}
    (h : (s.get_neighbors x none none).2 = some nb)
    (hLI : s.indices.length = s.layers.length) : nb.length = s.layers.length := by
  rw [get_neighbors_snd] at h
  rw [neighborsLoop_length h]
  simp only [Option.getD_none]
  rw [countP_zip_fst (fun a => a ∈ s.layers) s.layers s.indices hLI.symm]
  exact List.countP_eq_length.mpr (fun l hl => decide_eq_true hl)

/-- C2: for every built DKNN classifier with parameter `k` and `L` configured
layers and every query batch, each row of the vote-count matrix returned by
`classify` sums to exactly `k` times the number of layers queried (`classify`
queries all configured layers; the parallel-array invariant
`len(indices) = len(layers)` established by `__init__` is a hypothesis). -/
theorem spec_C2 (s : DKNN) (x : List Input) (M : List (List ℚ))
    (hM : (s.classify x).2 = some M) (hLI : s.indices.length = s.layers.length) :
    ∀ row ∈ M, row.sum = ((s.k * s.layers.length : ℕ) : ℚ) := by
  rw [classify_snd] at hM
  rcases hg : (s.get_neighbors x none none).2 with _ | nb
  · rw [hg] at hM
    cases hM
  · rw [hg] at hM
    have h0 : ∀ r ∈ List.replicate x.length (List.replicate s.num_classes (0 : ℚ)),
        List.sum r = (0 : ℚ) := by
      intro r hr
      rcases List.mem_replicate.mp hr with ⟨-, rfl⟩
      simp
    have hsum := votesAcc_sums hM (nb_ids_length s x hg) h0
    intro row hrow
    rw [hsum row hrow, nb_length s x hg hLI]
    simp

/-- C7: for a fixed nonconformity array, the credibility value computed by
`credibility` is monotonically non-increasing in the nonconformity `a` of the
predicted class, and equal values of `a` yield equal credibility. -/
theorem spec_C7 (A : List ℚ) (a1 a2 : ℚ) (h : a1 ≤ a2) :
    credOfA A a2 ≤ credOfA A a1 ∧ (a1 = a2 → credOfA A a1 = credOfA A a2) := by
  refine ⟨?_, fun he => by rw [he]⟩
  unfold credOfA
  rcases List.eq_nil_or_concat A with rfl | -
  · simp
  · have hc : A.countP (fun α => decide (a2 ≤ α)) ≤ A.countP (fun α => decide (a1 ≤ α)) := by
      refine List.countP_mono_left (fun x _ hx => ?_)
      exact decide_eq_true (le_trans h (of_decide_eq_true hx))
    rcases Nat.eq_zero_or_pos A.length with hz | hp
    · rw [hz]
      simp
    · have hq : (0 : ℚ) < (A.length : ℚ) := by exact_mod_cast hp
      exact (div_le_div_iff_of_pos_right hq).mpr (by exact_mod_cast hc)

/-- C8: for every built classifier with a nonempty calibration set and every
vote-count row, `credibility` returns a value in the closed interval `[0,1]`. -/
theorem spec_C8 (s : DKNN) (cc : List (List ℚ)) (hA : 0 < s.A.length) :
    ∀ c ∈ s.credibility cc, 0 ≤ c ∧ c ≤ 1 := by
  intro c hc
  rcases List.mem_map.mp hc with ⟨row, -, rfl⟩
  unfold credOfA
  have hq : (0 : ℚ) < (s.A.length : ℚ) := by exact_mod_cast hA
  constructor
  · positivity
  · rw [div_le_one hq]
    have hcl : List.countP
        (fun α => decide (((s.k * s.layers.length : ℕ) : ℚ) - npAmax row ≤ α)) s.A
        ≤ s.A.length := List.countP_le_length _
    exact_mod_cast hcl

/-- C9: after construction, neither `classify` nor `get_neighbors` mutates the
per-layer indices, the shared training-label array, or the nonconformity
array (the only field they write is the activations dict), and `credibility`
reads nothing but the `A`, `k` and `layers` fields, so two states agreeing on
those fields yield identical credibility output. -/
theorem spec_C9 (s t : DKNN) (x : List Input) (ko : Option ℕ)
    (lo : Option (List String)) (cc : List (List ℚ))
    (hA : t.A = s.A) (hk : t.k = s.k) (hl : t.layers = s.layers) :
    ((s.get_neighbors x ko lo).1.indices = s.indices ∧
      (s.get_neighbors x ko lo).1.y_train = s.y_train ∧
      (s.get_neighbors x ko lo).1.A = s.A) ∧
    ((s.classify x).1.indices = s.indices ∧
      (s.classify x).1.y_train = s.y_train ∧
      (s.classify x).1.A = s.A) ∧
    t.credibility cc = s.credibility cc := by
  refine ⟨⟨rfl, rfl, rfl⟩, ⟨rfl, rfl, rfl⟩, ?_⟩
  simp [DKNN.credibility, hA, hk, hl]

theorem votesAcc_none_of_width {y : List ℕ} {nc : ℕ} (hnc : nc ≠ 10)
    (hy : ∀ v ∈ y, v < 10) (imat : List (List ℤ)) (nbrest : List (List (List ℤ)))
    (n : ℕ) :
    votesAcc y (imat :: nbrest)
      (List.replicate (n + 1) (List.replicate nc (0 : ℚ))) = none := by
  rw [List.replicate_succ]
  rcases imat with - | ⟨ids, rest2⟩
  · simp [votesAcc, addLayerRows]
  · have hb : (npBincount (ids.map (npGet y)) 10).length = 10 := by
      refine npBincount_length_of_lt ?_
      intro v hv
      rcases List.mem_map.mp hv with ⟨i, -, rfl⟩
      exact npGet_lt hy (by norm_num) i
    have hac : addCounts (List.replicate nc (0 : ℚ))
        (npBincount (ids.map (npGet y)) 10) = none := by
      unfold addCounts
      rw [if_neg]
      rw [hb, List.length_replicate]
      exact fun h => hnc h.symm
    simp [votesAcc, addLayerRows, hac]

/-- C10: the per-sample vote histogram inside `classify` always has at least
10 class columns regardless of `num_classes` (its length is the maximum of 10
and the largest neighbor label plus one), so a classifier constructed with
`num_classes ≠ 10` fails with a numpy shape error (`none`) on any nonempty
batch whose neighbor labels all lie in `[0, 10)`, instead of returning a
vote-count matrix of width `num_classes`. -/
theorem spec_C10 (s : DKNN) (x : List Input)
    (h10 : s.num_classes ≠ 10) (hy : ∀ y ∈ s.y_train, y < 10)
    (hx : x ≠ []) (hl : s.layers ≠ []) (hi : s.indices ≠ []) :
    (∀ xs : List ℕ, 10 ≤ (npBincount xs 10).length) ∧ (s.classify x).2 = none := by
  constructor
  · intro xs
    rw [npBincount_length]
    exact le_max_left _ _
  · rcases List.exists_cons_of_ne_nil hx with ⟨x0, xt, rfl⟩
    rcases List.exists_cons_of_ne_nil hl with ⟨l0, lt, hl0⟩
    rcases List.exists_cons_of_ne_nil hi with ⟨i0, it, hi0⟩
    rw [classify_snd]
    rcases hg : (s.get_neighbors (x0 :: xt) none none).2 with _ | nb
    · rfl
    · show votesAcc s.y_train nb
        (List.replicate (x0 :: xt).length (List.replicate s.num_classes (0 : ℚ))) = none
      rw [get_neighbors_snd, hl0, hi0] at hg
      simp only [List.zip_cons_cons, Option.getD_none] at hg
      rcases neighborsLoop_cons (List.mem_cons_self l0 lt) hg with ⟨imat0, out2, rfl⟩
      rw [List.length_cons]
      exact votesAcc_none_of_width h10 hy imat0 out2 xt.length

/-- C1: for every DKNN classifier built with parameter `k`, `L` configured
layers and a calibration set of `n > 0` samples, the stored nonconformity
array satisfies `A[i] = k*L - votes[i][true_label_i]`, and for every
vote-count row `credibility` returns `|{ i : A[i] >= k*L - max_class_votes }|
/ n`, where `max_class_votes` is the maximum entry of the row. -/
theorem spec_C1 (k L n : ℕ) (y_cal : List ℕ) (M : List (List ℚ)) (s : DKNN)
    (hy : y_cal.length = n) (hM : M.length = n) (hn : 0 < n)
    (hA : s.A = initA ((k * L : ℕ) : ℚ) n y_cal M)
    (hk : s.k = k) (hL : s.layers.length = L) :
    (∀ i, i < n → s.A.getD i 0 =
      ((k * L : ℕ) : ℚ) - (M.getD i []).getD (y_cal.getD i 0) 0) ∧
    (∀ row m, m ∈ row → (∀ x ∈ row, x ≤ m) →
      s.credibility [row] =
        [(((Finset.range n).filter
            (fun i => ((k * L : ℕ) : ℚ) - m ≤ s.A.getD i 0)).card : ℚ) / (n : ℚ)]) := by
  have hAlen : s.A.length = n := by
    rw [hA]
    simp [initA]
  constructor
  · intro i hi
    conv_lhs => rw [hA]
    unfold initA
    rw [List.getD_eq_getElem?_getD, List.getElem?_map, List.getElem?_range hi]
    have hyi : y_cal[i]? = some y_cal[i] :=
      List.getElem?_eq_getElem (by rw [hy]; exact hi)
    have hMi : M[i]? = some M[i] :=
      List.getElem?_eq_getElem (by rw [hM]; exact hi)
    simp only [Option.map_some', Option.getD_some, hyi, hMi,
      List.getD_eq_getElem?_getD]
  · intro row m hm hub
    unfold DKNN.credibility
    simp only [List.map_cons, List.map_nil]
    rw [npAmax_eq_max hm hub, hk, hL]
    unfold credOfA
    rw [countP_getD_card s.A (fun α => ((k * L : ℕ) : ℚ) - m ≤ α), hAlen]

/-- C3 as stated is false on the code: no `DegenerateIndexError` exists; a
nearest-neighbor query with `k = N + 1` over an index of `N = 2` training
points returns normally, with each id row of length `k` padded by the faiss
sentinel `-1` (silently padded results, not an exception). -/
theorem spec_C3_cex :
    sampleDKNN.y_train.length = 2 ∧
    (sampleDKNN.get_neighbors [[1, 0]] (some 3) none).2 = some [[[0, 1, -1]]] := by
  decide

/-- C3 amended: a query with `k` larger than the number `N` of indexed
training points does not raise; `search` returns exactly `k` id entries per
query, the missing ones filled with the sentinel `-1` (which downstream numpy
label lookup maps to the last training sample's label). -/
theorem spec_C3 (rank : List ℚ → List ℕ) (xb : List (List ℚ)) (q : List ℚ)
    (k : ℕ) (h : xb.length < k) :
    ((build_index rank xb).searchIds q k).length = k ∧
      (-1 : ℤ) ∈ (build_index rank xb).searchIds q k := by
  refine ⟨searchIds_length _ _ _, ?_⟩
  unfold FaissIndex.searchIds build_index
  refine List.mem_append_right _ (List.mem_replicate.mpr ⟨?_, rfl⟩)
  simp only [List.length_map, List.length_take]
  omega

theorem sqNormR_nonneg (v : List ℝ) : 0 ≤ sqNormR v := by
  refine List.sum_nonneg ?_
  intro x hx
  rcases List.mem_map.mp hx with ⟨y, -, rfl⟩
  positivity

theorem sqNormR_map_div (v : List ℝ) (s : ℝ) :
    sqNormR (v.map (fun x => x / s)) = sqNormR v / s ^ 2 := by
  unfold sqNormR
  rw [List.map_map]
  calc (v.map ((fun x => x ^ 2) ∘ fun x => x / s)).sum
      = (v.map (fun x => x ^ 2 * (s ^ 2)⁻¹)).sum := by
        refine congrArg List.sum (List.map_congr_left ?_)
        intro x hx
        simp only [Function.comp]
        rw [div_pow, div_eq_mul_inv]
    _ = (v.map (fun x => x ^ 2)).sum * (s ^ 2)⁻¹ := List.sum_map_mul_right v _ _
    _ = (v.map (fun x => x ^ 2)).sum / s ^ 2 := (div_eq_mul_inv _ _).symm

theorem renorm_sqNormR (v : List ℝ) :
    sqNormR (renormRow v) = if sqNormR v ≤ 1 then sqNormR v else 1 := by
  unfold renormRow
  split
  · rfl
  · rename_i h
    have h1 : (1 : ℝ) < sqNormR v := not_le.mp h
    have hpos : (0 : ℝ) < sqNormR v := lt_trans one_pos h1
    rw [sqNormR_map_div, Real.sq_sqrt (le_of_lt hpos)]
    exact div_self (ne_of_gt hpos)

/-- C4 as stated is false on the code: `renorm(2, 0, 1)` does not bring every
row to unit L2 norm.  The concrete batch `[[1/2]]` passes through the
normalization step unchanged, and its single row has squared norm `1/4`, not
`1`. -/
theorem spec_C4_cex :
    renormBatch [[(1 / 2 : ℝ)]] = [[(1 / 2 : ℝ)]] ∧
      sqNormR [(1 / 2 : ℝ)] ≠ 1 := by
  have h : sqNormR [(1 / 2 : ℝ)] = 1 / 4 := by
    simp [sqNormR]
    norm_num
  constructor
  · have h2 : renormRow [(1 / 2 : ℝ)] = [(1 / 2 : ℝ)] := by
      unfold renormRow
      rw [if_pos]
      rw [h]
      norm_num
    unfold renormBatch
    rw [List.map_cons, List.map_nil, h2]
  · rw [h]
    norm_num

/-- C4 amended: every row passed to `index.add` and `index.search` has
(squared) L2 norm at most 1: `renorm(2, 0, 1)` leaves a row unchanged when its
norm is at most the max-norm 1 and scales it down to norm exactly 1 only when
its norm exceeds 1. -/
theorem spec_C4 (v : List ℝ) (mm : List (List ℝ)) :
    sqNormR (renormRow v) ≤ 1 ∧
    (sqNormR v ≤ 1 → renormRow v = v) ∧
    (1 < sqNormR v → sqNormR (renormRow v) = 1) ∧
    (∀ w ∈ renormBatch mm, sqNormR w ≤ 1) := by
  have key : ∀ u : List ℝ, sqNormR (renormRow u) ≤ 1 := by
    intro u
    rw [renorm_sqNormR]
    split
    · assumption
    · exact le_refl 1
  refine ⟨key v, ?_, ?_, ?_⟩
  · intro h
    unfold renormRow
    rw [if_pos h]
  · intro h
    rw [renorm_sqNormR, if_neg (not_le.mpr h)]
  · intro w hw
    rcases List.mem_map.mp hw with ⟨u, -, rfl⟩
    exact key u

/-- C5 as stated is false on the code: `__init__` contains no emptiness check
and no `EmptyCalibrationSetError` exists.  In the degenerate build with zero
configured layers the per-layer loop of `get_neighbors` (and with it the
failing numpy reshape of line 125) is never executed, so a zero-sample
calibration set produces a constructed classifier instance instead of any
error. -/
theorem spec_C5_cex :
    (DKNN.init sampleCfg [[1, 0], [0, 1]] [0, 1] [] [] [] 2 10).isSome
      = true := by
  rfl

/-- C5 amended: with at least one configured layer, building with an empty
calibration set does abort with no instance constructed — but via the generic
numpy `ValueError` raised by `reshape(0, -1)` inside `get_neighbors`
(line 125) when `__init__` classifies the empty calibration batch, not via a
dedicated `EmptyCalibrationSetError` (no such error exists in the code); with
zero configured layers the reshape is never reached and the build succeeds. -/
theorem spec_C5 (cfg : ModelCfg) (x_train : List Input) (y_train : List ℕ)
    (y_cal : List ℕ) (layers : List String) (k nc : ℕ)
    (hg : cfg.children.countP (fun c => decide (c ∈ layers)) = layers.length)
    (hl : layers ≠ []) :
    DKNN.init cfg x_train y_train [] y_cal layers k nc = none := by
  unfold DKNN.init
  rw [if_pos hg]
  have hcl : ((initState cfg x_train y_train layers k nc).classify []).2 = none := by
    refine classify_nil_fails _ hl ?_
    rcases List.exists_cons_of_ne_nil hl with ⟨l0, lt, rfl⟩
    exact List.cons_ne_nil _ _
  simp only [hcl]

/-- C6 as stated is false on the code: `get_neighbors` never validates the
requested layer names; a request consisting of the unconfigured name "bogus"
returns normally with an empty result list instead of raising
`UnknownLayerError`. -/
theorem spec_C6_cex :
    (sampleDKNN.get_neighbors [[1, 0]] none (some ["bogus"])).2 = some [] ∧
      ¬ (("bogus" : String) ∈ sampleDKNN.layers) := by
  constructor
  · decide
  · decide

/-- C6 amended: requested layer names that are not configured are silently
skipped; a `get_neighbors` call that returns (rather than raising in the numpy
reshape) yields exactly one result per configured layer whose name occurs in
the request, so a request of only unknown names yields an empty result list
and no error. -/
theorem spec_C6 (s : DKNN) (x : List Input) (ko : Option ℕ) (ls : List String)
    (out : List (List (List ℤ)))
    (hLI : s.indices.length = s.layers.length)
    (h : (s.get_neighbors x ko (some ls)).2 = some out) :
    out.length = s.layers.countP (fun l => decide (l ∈ ls)) := by
  rw [get_neighbors_snd] at h
  rw [neighborsLoop_length h]
  simp only [Option.getD_some]
  exact countP_zip_fst (fun a => a ∈ ls) s.layers s.indices hLI.symm

/-- A concrete calibration vote-count matrix (two calibration samples, ten
possible votes collapsed to two columns for brevity). -/
def sampleM : List (List ℚ) := [[3, 1], [1, 1]]

/-- A concrete classifier whose nonconformity array was stored by the
calibration loop over `sampleM`. -/
def sampleCalDKNN : DKNN :=
  { modelReps := fun x _ => x, x_train := [[1, 0], [0, 1]], y_train := [0, 1],
    layers := ["relu1"], k := 2, num_classes := 10,
    indices := [{ ntotal := 2, ranking := sampleRank }], activations := [],
    A := initA ((2 * 1 : ℕ) : ℚ) 2 [0, 1] sampleM }

/-- A concrete classifier constructed with `num_classes = 12`. -/
def sampleDKNN12 : DKNN :=
  { modelReps := fun x _ => x, x_train := [[1, 0], [0, 1]], y_train := [0, 1],
    layers := ["relu1"], k := 2, num_classes := 12,
    indices := [{ ntotal := 2, ranking := sampleRank }], activations := [],
    A := [1] }

/-- Witness for C1 at a concrete calibrated classifier. -/
theorem spec_C1_witness :
    sampleCalDKNN.A.getD 0 0 =
      ((2 * 1 : ℕ) : ℚ) - (sampleM.getD 0 []).getD (([0, 1] : List ℕ).getD 0 0) 0 ∧
    sampleCalDKNN.credibility [[3, 1]] =
      [(((Finset.range 2).filter
          (fun i => ((2 * 1 : ℕ) : ℚ) - 3 ≤ sampleCalDKNN.A.getD i 0)).card : ℚ) /
        ((2 : ℕ) : ℚ)] := by
  have h := spec_C1 2 1 2 [0, 1] sampleM sampleCalDKNN rfl rfl (by norm_num)
    rfl rfl rfl
  refine ⟨h.1 0 (by norm_num), h.2 [3, 1] 3 (by simp) ?_⟩
  intro x hx
  simp only [List.mem_cons, List.not_mem_nil, or_false] at hx
  rcases hx with rfl | rfl <;> norm_num

/-- Witness for C2 at a concrete classifier and batch. -/
theorem spec_C2_witness :
    ((((sampleDKNN.classify [[1, 0]]).2).getD []).getD 0 []).sum =
      ((sampleDKNN.k * sampleDKNN.layers.length : ℕ) : ℚ) := by
  have hM : (sampleDKNN.classify [[1, 0]]).2 =
      some (((sampleDKNN.classify [[1, 0]]).2).getD []) := rfl
  have h := spec_C2 sampleDKNN [[1, 0]] _ hM rfl
  exact h _ (List.mem_singleton_self _)

/-- Witness for C3 (amended) at a concrete index of two points and `k = 3`. -/
theorem spec_C3_witness :
    ((build_index sampleRank [[1, 0], [0, 1]]).searchIds [1, 0] 3).length = 3 ∧
      (-1 : ℤ) ∈ (build_index sampleRank [[1, 0], [0, 1]]).searchIds [1, 0] 3 :=
  spec_C3 sampleRank [[1, 0], [0, 1]] [1, 0] 3 (by norm_num)

/-- Witness for C4 (amended): a short row passes through unchanged and a long
row is rescaled to unit norm. -/
theorem spec_C4_witness :
    renormRow [(1 / 2 : ℝ)] = [(1 / 2 : ℝ)] ∧
      sqNormR (renormRow [(2 : ℝ)]) = 1 := by
  refine ⟨(spec_C4 [(1 / 2 : ℝ)] []).2.1 ?_, (spec_C4 [(2 : ℝ)] []).2.2.1 ?_⟩
  · norm_num [sqNormR]
  · norm_num [sqNormR]

/-- Witness for C5 (amended) at a concrete configuration with one configured
layer: the empty-calibration build aborts. -/
theorem spec_C5_witness :
    DKNN.init sampleCfg [[1, 0], [0, 1]] [0, 1] [] [] ["relu1"] 2 10 = none :=
  spec_C5 sampleCfg [[1, 0], [0, 1]] [0, 1] [] ["relu1"] 2 10 (by decide)
    (List.cons_ne_nil _ _)

/-- Witness for C6 (amended): a request of one unknown layer name yields zero
results. -/
theorem spec_C6_witness :
    ([] : List (List (List ℤ))).length =
      sampleDKNN.layers.countP (fun l => decide (l ∈ (["bogus"] : List String))) :=
  spec_C6 sampleDKNN [[1, 0]] none ["bogus"] [] rfl (by decide)

/-- Witness for C7 at a concrete nonconformity array and pair of levels. -/
theorem spec_C7_witness :
    credOfA [0, 1, 2] 1 ≤ credOfA [0, 1, 2] 0 ∧
      ((0 : ℚ) = 1 → credOfA [0, 1, 2] 0 = credOfA [0, 1, 2] 1) :=
  spec_C7 [0, 1, 2] 0 1 (by norm_num)

/-- Witness for C8 at a concrete classifier and vote-count row. -/
theorem spec_C8_witness :
    0 ≤ credOfA sampleDKNN.A
        (((sampleDKNN.k * sampleDKNN.layers.length : ℕ) : ℚ) - npAmax [3, 1]) ∧
      credOfA sampleDKNN.A
        (((sampleDKNN.k * sampleDKNN.layers.length : ℕ) : ℚ) - npAmax [3, 1]) ≤ 1 :=
  spec_C8 sampleDKNN [[3, 1]] (by decide) _ (List.mem_singleton_self _)

/-- Witness for C9 at a concrete classifier, batch, and vote-count matrix. -/
theorem spec_C9_witness :
    ((sampleDKNN.get_neighbors [[1, 0]] none none).1.indices = sampleDKNN.indices ∧
      (sampleDKNN.get_neighbors [[1, 0]] none none).1.y_train = sampleDKNN.y_train ∧
      (sampleDKNN.get_neighbors [[1, 0]] none none).1.A = sampleDKNN.A) ∧
    ((sampleDKNN.classify [[1, 0]]).1.indices = sampleDKNN.indices ∧
      (sampleDKNN.classify [[1, 0]]).1.y_train = sampleDKNN.y_train ∧
      (sampleDKNN.classify [[1, 0]]).1.A = sampleDKNN.A) ∧
    sampleDKNN.credibility [[3, 1]] = sampleDKNN.credibility [[3, 1]] :=
  spec_C9 sampleDKNN sampleDKNN [[1, 0]] none none [[3, 1]] rfl rfl rfl

/-- Witness for C10 at a concrete classifier built with `num_classes = 12`. -/
theorem spec_C10_witness :
    10 ≤ (npBincount [0, 1] 10).length ∧
      (sampleDKNN12.classify [[1, 0]]).2 = none := by
  have h := spec_C10 sampleDKNN12 [[1, 0]] (by decide) (by decide)
    (List.cons_ne_nil _ _) (List.cons_ne_nil _ _) (List.cons_ne_nil _ _)
  exact ⟨h.1 [0, 1], h.2⟩
